import Mathlib

/-!
Shallow embedding of the gacha draw engine of `src/gacha-system/src/gacha_core.rs`
(crate `gacha-system`), together with its error taxonomy from
`src/gacha-system/src/error.rs`.

Modelling conventions:
* `f64` weights and random draws are modelled as exact rationals `ℚ`.
* `u32` counters are modelled as `Nat`; the one place where unsigned
  underflow is possible (`self.chances -= 1` in `gacha_by_rarity`) is made
  explicit: a decrement of a zero budget yields the distinguished outcome
  `DrawOutcome.underflowPanic` (the debug-build panic of Rust).
* `ThreadRng` is modelled by oracles: each loop iteration `i` of `pull`
  consumes a rational `F i` for `rng.gen_range(0.0..gen_limit)` and a natural
  `K i` for `SliceRandom::choose`.  `gen_range` on an empty range panics in
  `rand`, modelled by `PullPanic.emptyRange`; on a non-empty range it returns
  an arbitrary value of `[0, gen_limit)`, modelled by clamping an out-of-range
  oracle value to `0` (so every in-range value is reachable and no
  out-of-range value is).
* `choose` picks index `K i % len` (any element of a non-empty list is
  reachable; the empty list gives `none`, exactly as `choose`).
* Rust panics inside `pull` (`gen_range` on an empty range, the `.expect` on
  a failed interval lookup, the `.unwrap` of a draw error, and the debug
  underflow panic) are the `PullPanic` error channel of `pull`; the engine
  state at the moment of the panic is still reported, mirroring the `&mut
  self` receiver that keeps all mutations made before the panic.
-/

/-- Reward tiers, `enum Rarity` of gacha_core.rs (declared order SSR, SR, R, N). -/
inductive Rarity
  | SSR
  | SR
  | R
  | N
deriving DecidableEq

/-- One drawable reward, `struct GachaItem` of gacha_core.rs. -/
structure GachaItem where
  name : String
  rarity : Rarity
deriving DecidableEq

/-- The `Debug` rendering of a tier, as used by `format!("{rarity:?}")`. -/
def rarityName : Rarity → String
  | .SSR => "SSR"
  | .SR => "SR"
  | .R => "R"
  | .N => "N"

/-- `enum GachaError` of error.rs: the two data-integrity failures of a draw. -/
inductive GachaError
  | InvalidRarity (s : String)
  | RarityWithNoData (s : String)
deriving DecidableEq

/-- Engine state, `struct GachaSystem` of gacha_core.rs.  `chances` is the
remaining pull budget, `pity`/`hard_pity` the soft/hard pity thresholds,
`_pity_accu`/`_hard_pity_accu` the soft/hard pity streak counters, `data` the
item pool (the `HashMap` modelled as an association list) and `rarities` the
weighted rarity table. -/
structure GachaSystem where
  chances : Nat
  pity : Nat
  hard_pity : Nat
  _pity_accu : Nat
  _hard_pity_accu : Nat
  data : List (Rarity × List GachaItem)
  rarities : List (Rarity × ℚ)
deriving DecidableEq

/-- `HashMap::get` on the modelled pool: the entry of tier `r`, if any. -/
def dataGet (data : List (Rarity × List GachaItem)) (r : Rarity) : Option (List GachaItem) :=
  (data.find? (fun p => p.1 == r)).map Prod.snd

/-- Outcome of one `gacha_by_rarity` call: the Rust `Result` plus the
debug-build panic of `self.chances -= 1` on a zero budget. -/
inductive DrawOutcome
  | ok (item : GachaItem)
  | err (e : GachaError)
  | underflowPanic
deriving DecidableEq

/-- `GachaSystem::gacha_by_rarity` (gacha_core.rs lines 100-128): look the tier
up in the pool (`InvalidRarity` when absent), choose one item
(`RarityWithNoData` when the entry is empty), then — only on success —
decrement the budget and update the two pity counters according to the tier. -/
def gacha_by_rarity (s : GachaSystem) (rarity : Rarity) (k : Nat) :
    DrawOutcome × GachaSystem :=
  match dataGet s.data rarity with
  | none => (.err (.InvalidRarity (rarityName rarity)), s)
  | some poll =>
    match poll.get? (k % poll.length) with
    | none => (.err (.RarityWithNoData (rarityName rarity)), s)
    | some res =>
      if s.chances = 0 then (.underflowPanic, s)
      else
        (.ok res,
          { s with
            chances := s.chances - 1
            _hard_pity_accu := if rarity = .SSR then 0 else s._hard_pity_accu + 1
            _pity_accu :=
              match rarity with
              | .SSR => 0
              | .SR => 0
              | _ => s._pity_accu + 1 })

/-- `GachaSystem::pity_rarities_and_rate` (gacha_core.rs lines 134-154): when
`_hard_pity_accu + 1 == hard_pity` the table is filtered to its SSR entries;
otherwise when `_pity_accu + 1 == pity` it is filtered to its SSR and SR
entries; otherwise no pity applies. -/
def pity_rarities_and_rate (s : GachaSystem) : Option (List (Rarity × ℚ)) :=
  if s._hard_pity_accu + 1 = s.hard_pity then
    some (s.rarities.filter (fun p => p.1 == Rarity.SSR))
  else if s._pity_accu + 1 = s.pity then
    some (s.rarities.filter (fun p => p.1 == Rarity.SSR || p.1 == Rarity.SR))
  else
    none

/-- The running-sum loop body of `rarity_range` (gacha_core.rs lines 157-167),
with the accumulated sum made explicit. -/
def rarityRangeGo (sum : ℚ) : List (Rarity × ℚ) → List (Rarity × (ℚ × ℚ))
  | [] => []
  | (rarity, rate) :: rest =>
    let lo := sum
    let hi := lo + rate
    (rarity, (lo, hi)) :: rarityRangeGo hi rest

/-- `rarity_range` (gacha_core.rs lines 157-167): each `(tier, weight)` pair
becomes `(tier, lo..hi)` with `lo` the running sum of the earlier weights and
`hi = lo + weight`. -/
def rarity_range (rarities : List (Rarity × ℚ)) : List (Rarity × (ℚ × ℚ)) :=
  rarityRangeGo 0 rarities

/-- `Range::<f64>::contains(&f)`: membership in the half-open interval. -/
def rangeContains (rg : ℚ × ℚ) (f : ℚ) : Bool :=
  decide (rg.1 ≤ f) && decide (f < rg.2)

/-- The panics that can abort a `pull` batch (`pull` itself returns a plain
`Vec`, so every failure inside it is a Rust panic). -/
inductive PullPanic
  | emptyRange
  | noInterval
  | unwrapErr (e : GachaError)
  | chancesUnderflow
deriving DecidableEq

/-- Tier selection of one loop iteration of `pull` (gacha_core.rs lines
80-92): consult the pity tracker, sum the available weights into `gen_limit`,
draw `f` uniformly from `[0, gen_limit)` (a panic when the range is empty) and
take the first entry of `rarity_range` whose interval contains `f` (a panic
when none does).  `f` is the oracle value for the random draw, clamped into
the valid range. -/
def selectRarity (s : GachaSystem) (f : ℚ) : Except PullPanic Rarity :=
  let available := (pity_rarities_and_rate s).getD s.rarities
  let gen_limit : ℚ := (available.map Prod.snd).sum
  if gen_limit ≤ 0 then .error .emptyRange
  else
    let fv := if 0 ≤ f ∧ f < gen_limit then f else 0
    match (rarity_range available).find? (fun p => rangeContains p.2 fv) with
    | none => .error .noInterval
    | some pr => .ok pr.1

/-- One full iteration of the `pull` loop (gacha_core.rs lines 80-96): select
a tier, then draw an item of that tier; the `.unwrap()` of a draw error and
the budget-underflow panic become `PullPanic`s. -/
def drawOne (s : GachaSystem) (f : ℚ) (k : Nat) :
    Except PullPanic (GachaItem × GachaSystem) :=
  match selectRarity s f with
  | .error p => .error p
  | .ok r =>
    match gacha_by_rarity s r k with
    | (.ok item, s') => .ok (item, s')
    | (.err e, _) => .error (.unwrapErr e)
    | (.underflowPanic, _) => .error .chancesUnderflow

deriving instance DecidableEq for Except

/-- Result of a `pull` call: the returned items (or the panic that aborted the
batch) together with the engine state, which survives a panic through the
`&mut self` receiver. -/
structure PullOut where
  res : Except PullPanic (List GachaItem)
  state : GachaSystem
deriving DecidableEq

/-- The `for _ in 0..num_limit` loop of `pull` (gacha_core.rs lines 80-96):
`fuel` is the number of iterations left and `i` the index of the current
iteration in the oracle streams.  A panic aborts the batch, returning no item. -/
def pullLoop (s : GachaSystem) (fuel : Nat) (F : Nat → ℚ) (K : Nat → Nat)
    (i : Nat) : PullOut :=
  match fuel with
  | 0 => ⟨.ok [], s⟩
  | fuel' + 1 =>
    match drawOne s (F i) (K i) with
    | .error p => ⟨.error p, s⟩
    | .ok (item, s') =>
      let rest := pullLoop s' fuel' F K (i + 1)
      match rest.res with
      | .error p => ⟨.error p, rest.state⟩
      | .ok items => ⟨.ok (item :: items), rest.state⟩

/-- `GachaSystem::pull` (gacha_core.rs lines 75-98): run the loop
`num.min(self.chances)` times. -/
def pull (s : GachaSystem) (num : Nat) (F : Nat → ℚ) (K : Nat → Nat) : PullOut :=
  pullLoop s (min num s.chances) F K 0

/-- Sum of the weights of the first `i` entries of a rarity table. -/
def sumBefore (rs : List (Rarity × ℚ)) (i : Nat) : ℚ :=
  ((rs.take i).map Prod.snd).sum

/-- Total weight of a rarity table (the `gen_limit` of `pull`). -/
def totalWeight (rs : List (Rarity × ℚ)) : ℚ :=
  (rs.map Prod.snd).sum

/-- Total weight of the SSR entries of the table of `s` (the `gen_limit` of a
hard-pity draw). -/
def ssrTotal (s : GachaSystem) : ℚ :=
  totalWeight (s.rarities.filter (fun p => p.1 == Rarity.SSR))

/-- Total weight of the SSR and SR entries of the table of `s` (the
`gen_limit` of a soft-pity draw). -/
def softTotal (s : GachaSystem) : ℚ :=
  totalWeight (s.rarities.filter (fun p => p.1 == Rarity.SSR || p.1 == Rarity.SR))

/-- The pool entry of tier `r`, defaulting to the empty list when absent. -/
def poolOf (s : GachaSystem) (r : Rarity) : List GachaItem :=
  (dataGet s.data r).getD []

/-- Whether a `pull` outcome is the budget-underflow panic. -/
def hitUnderflow (o : PullOut) : Bool :=
  match o.res with
  | .error .chancesUnderflow => true
  | _ => false

/-! ### Lemmas about the range construction -/

theorem rangeContains_iff (rg : ℚ × ℚ) (f : ℚ) :
    rangeContains rg f = true ↔ rg.1 ≤ f ∧ f < rg.2 := by
  simp [rangeContains]

theorem rarityRangeGo_length (sum : ℚ) (rs : List (Rarity × ℚ)) :
    (rarityRangeGo sum rs).length = rs.length := by
  induction rs generalizing sum with
  | nil => rfl
  | cons hd tl ih => obtain ⟨r, w⟩ := hd; simp [rarityRangeGo, ih]

theorem sumBefore_cons (p : Rarity × ℚ) (tl : List (Rarity × ℚ)) (j : Nat) :
    sumBefore (p :: tl) (j + 1) = p.2 + sumBefore tl j := by
  simp [sumBefore]

theorem sumBefore_nonneg (rs : List (Rarity × ℚ)) (i : Nat)
    (hw : ∀ p ∈ rs, 0 ≤ p.2) : 0 ≤ sumBefore rs i := by
  refine List.sum_nonneg ?_
  intro x hx
  obtain ⟨p, hp, hpx⟩ := List.mem_map.1 hx
  exact hpx ▸ hw p (List.mem_of_mem_take hp)

theorem rarityRangeGo_get (sum : ℚ) (rs : List (Rarity × ℚ)) (i : Nat)
    (h : i < rs.length) (h' : i < (rarityRangeGo sum rs).length) :
    (rarityRangeGo sum rs).get ⟨i, h'⟩ =
      ((rs.get ⟨i, h⟩).1,
        (sum + sumBefore rs i, sum + sumBefore rs i + (rs.get ⟨i, h⟩).2)) := by
  induction rs generalizing sum i with
  | nil => exact absurd h (Nat.not_lt_zero i)
  | cons hd tl ih =>
    obtain ⟨r, w⟩ := hd
    cases i with
    | zero => simp [rarityRangeGo, sumBefore]
    | succ j =>
      have hj : j < tl.length := Nat.lt_of_succ_lt_succ h
      have hj' : j < (rarityRangeGo (sum + w) tl).length := by
        rw [rarityRangeGo_length]; exact hj
      have step :
          (rarityRangeGo sum ((r, w) :: tl)).get ⟨j + 1, h'⟩ =
            (rarityRangeGo (sum + w) tl).get ⟨j, hj'⟩ := by
        simp [rarityRangeGo]
      rw [step, ih (sum + w) j hj hj', sumBefore_cons]
      simp [add_assoc]

theorem mem_rarityRangeGo (sum : ℚ) (rs : List (Rarity × ℚ))
    (pr : Rarity × (ℚ × ℚ)) (h : pr ∈ rarityRangeGo sum rs) :
    ∃ rw ∈ rs, rw.1 = pr.1 ∧ pr.2.2 = pr.2.1 + rw.2 := by
  induction rs generalizing sum with
  | nil => simp [rarityRangeGo] at h
  | cons hd tl ih =>
    obtain ⟨r, w⟩ := hd
    simp only [rarityRangeGo, List.mem_cons] at h
    rcases h with h | h
    · exact ⟨(r, w), List.mem_cons_self _ _, by simp [h]⟩
    · obtain ⟨rw, hrw, h1, h2⟩ := ih (sum + w) h
      exact ⟨rw, List.mem_cons_of_mem _ hrw, h1, h2⟩

theorem find?_rarityRangeGo_of_lt (sum : ℚ) (rs : List (Rarity × ℚ)) (f : ℚ)
    (h0 : sum ≤ f) (h1 : f < sum + totalWeight rs) :
    ∃ pr, (rarityRangeGo sum rs).find? (fun p => rangeContains p.2 f) = some pr := by
  induction rs generalizing sum with
  | nil =>
    exfalso
    simp only [totalWeight, List.map_nil, List.sum_nil, add_zero] at h1
    exact absurd h1 (not_lt.mpr h0)
  | cons hd tl ih =>
    obtain ⟨r, w⟩ := hd
    by_cases hf : f < sum + w
    · refine ⟨(r, (sum, sum + w)), ?_⟩
      simp only [rarityRangeGo]
      rw [List.find?_cons_of_pos]
      simp [rangeContains, h0, hf]
    · have h0' : sum + w ≤ f := not_lt.mp hf
      have h1' : f < sum + w + totalWeight tl := by
        have : totalWeight ((r, w) :: tl) = w + totalWeight tl := by
          simp [totalWeight]
        rw [this, ← add_assoc] at h1
        exact h1
      obtain ⟨pr, hpr⟩ := ih (sum + w) h0' h1'
      refine ⟨pr, ?_⟩
      simp only [rarityRangeGo]
      rw [List.find?_cons_of_neg, hpr]
      simp [rangeContains, hf]

/-! ### Lemmas about single draws and the pull loop -/

theorem dataGet_eq_some_of_poolOf_ne_nil (s : GachaSystem) (r : Rarity)
    (h : poolOf s r ≠ []) : dataGet s.data r = some (poolOf s r) := by
  unfold poolOf at *
  cases hd : dataGet s.data r with
  | none => rw [hd] at h; simp at h
  | some poll => simp

theorem gacha_by_rarity_ok_of (s : GachaSystem) (r : Rarity) (k : Nat)
    (hpool : poolOf s r ≠ []) (hch : s.chances ≠ 0) :
    ∃ it s', gacha_by_rarity s r k = (.ok it, s') := by
  have hsome := dataGet_eq_some_of_poolOf_ne_nil s r hpool
  have hlen : 0 < (poolOf s r).length := List.length_pos.mpr hpool
  have hidx : k % (poolOf s r).length < (poolOf s r).length := Nat.mod_lt _ hlen
  have hget : (poolOf s r).get? (k % (poolOf s r).length) =
      some ((poolOf s r).get ⟨k % (poolOf s r).length, hidx⟩) :=
    List.get?_eq_get hidx
  unfold gacha_by_rarity
  rw [hsome]
  simp only [hget, hch, if_false]
  exact ⟨_, _, rfl⟩

theorem gacha_by_rarity_ok_state (s : GachaSystem) (r : Rarity) (k : Nat)
    (it : GachaItem) (s' : GachaSystem)
    (h : gacha_by_rarity s r k = (.ok it, s')) :
    s'.chances = s.chances - 1 ∧ s.chances ≠ 0 ∧ s'.data = s.data ∧
      s'.rarities = s.rarities ∧ s'.pity = s.pity ∧ s'.hard_pity = s.hard_pity := by
  unfold gacha_by_rarity at h
  split at h
  · simp at h
  · split at h
    · simp at h
    · split at h
      · simp at h
      · rename_i hch
        obtain ⟨-, h2⟩ := Prod.mk.injEq .. ▸ h
        refine ⟨by rw [← h2], hch, by rw [← h2], by rw [← h2], by rw [← h2], by rw [← h2]⟩

theorem gacha_by_rarity_err_state (s : GachaSystem) (r : Rarity) (k : Nat)
    (e : GachaError) (s₂ : GachaSystem)
    (h : gacha_by_rarity s r k = (.err e, s₂)) : s₂ = s := by
  unfold gacha_by_rarity at h
  split at h
  · exact (Prod.mk.injEq .. ▸ h).2.symm
  · split at h
    · exact (Prod.mk.injEq .. ▸ h).2.symm
    · split at h
      · simp at h
      · simp at h

theorem available_cases (s : GachaSystem) :
    (pity_rarities_and_rate s).getD s.rarities = s.rarities ∨
    (pity_rarities_and_rate s).getD s.rarities =
      s.rarities.filter (fun p => p.1 == Rarity.SSR) ∨
    (pity_rarities_and_rate s).getD s.rarities =
      s.rarities.filter (fun p => p.1 == Rarity.SSR || p.1 == Rarity.SR) := by
  unfold pity_rarities_and_rate
  split
  · right; left; rfl
  · split
    · right; right; rfl
    · left; rfl

theorem mem_of_mem_available (s : GachaSystem) (p : Rarity × ℚ)
    (h : p ∈ (pity_rarities_and_rate s).getD s.rarities) : p ∈ s.rarities := by
  rcases available_cases s with hc | hc | hc <;> rw [hc] at h
  · exact h
  · exact (List.mem_filter.1 h).1
  · exact (List.mem_filter.1 h).1

theorem selectRarity_ok_mem (s : GachaSystem) (f : ℚ) (r : Rarity)
    (h : selectRarity s f = .ok r) :
    ∃ rw ∈ (pity_rarities_and_rate s).getD s.rarities, rw.1 = r ∧ 0 < rw.2 := by
  simp only [selectRarity] at h
  split at h
  · simp at h
  · split at h
    · simp at h
    · rename_i pr hpr
      have hr : pr.1 = r := by simpa using h
      have hmem := List.mem_of_find?_eq_some hpr
      have hcont := List.find?_some hpr
      rw [rangeContains_iff] at hcont
      unfold rarity_range at hmem
      obtain ⟨rw, hrw, h1, h2⟩ := mem_rarityRangeGo 0 _ pr hmem
      refine ⟨rw, hrw, h1.trans hr, ?_⟩
      have hlt : pr.2.1 < pr.2.1 + rw.2 := lt_of_le_of_lt hcont.1 (h2 ▸ hcont.2)
      linarith

theorem selectRarity_ok_of_pos (s : GachaSystem) (f : ℚ)
    (hgl : 0 < totalWeight ((pity_rarities_and_rate s).getD s.rarities)) :
    ∃ r, selectRarity s f = .ok r := by
  simp only [selectRarity]
  have hgl' : ¬ (((pity_rarities_and_rate s).getD s.rarities).map Prod.snd).sum ≤ 0 :=
    not_le.mpr hgl
  simp only [hgl', if_false]
  set gl := (((pity_rarities_and_rate s).getD s.rarities).map Prod.snd).sum with hgl0
  set fv := if 0 ≤ f ∧ f < gl then f else 0 with hfv
  have hrange : 0 ≤ fv ∧ fv < gl := by
    rw [hfv]
    split
    · rename_i hin; exact hin
    · exact ⟨le_refl 0, hgl⟩
  obtain ⟨pr, hpr⟩ :=
    find?_rarityRangeGo_of_lt 0 ((pity_rarities_and_rate s).getD s.rarities) fv
      hrange.1 (by rw [zero_add]; exact hrange.2)
  unfold rarity_range
  rw [hpr]
  exact ⟨pr.1, rfl⟩

theorem selectRarity_not_underflow (s : GachaSystem) (f : ℚ) :
    selectRarity s f ≠ .error .chancesUnderflow := by
  simp only [selectRarity]
  split
  · simp
  · split <;> simp

theorem gacha_not_underflow (s : GachaSystem) (r : Rarity) (k : Nat)
    (hch : s.chances ≠ 0) : (gacha_by_rarity s r k).1 ≠ .underflowPanic := by
  unfold gacha_by_rarity
  split
  · simp
  · split
    · simp
    · simp [hch]

theorem drawOne_ok_state (s : GachaSystem) (f : ℚ) (k : Nat) (it : GachaItem)
    (s' : GachaSystem) (h : drawOne s f k = .ok (it, s')) :
    s'.chances = s.chances - 1 ∧ s.chances ≠ 0 ∧ s'.data = s.data ∧
      s'.rarities = s.rarities ∧ s'.pity = s.pity ∧ s'.hard_pity = s.hard_pity := by
  unfold drawOne at h
  split at h
  · simp at h
  · split at h
    · rename_i heq
      obtain ⟨h1, h2⟩ : it = _ ∧ s' = _ := by simpa using h.symm
      subst h2
      exact gacha_by_rarity_ok_state _ _ _ _ _ heq
    · simp at h
    · simp at h

theorem drawOne_not_underflow (s : GachaSystem) (f : ℚ) (k : Nat)
    (hch : s.chances ≠ 0) : drawOne s f k ≠ .error .chancesUnderflow := by
  unfold drawOne
  split
  · rename_i p hp
    intro hcon
    have : p = .chancesUnderflow := by simpa using hcon
    exact selectRarity_not_underflow s f (this ▸ hp)
  · rename_i r hsel
    split
    · simp
    · simp
    · rename_i s₂ heq
      exact absurd (congrArg Prod.fst heq) (by simpa using gacha_not_underflow s r k hch)

theorem drawOne_ok_of (s : GachaSystem) (f : ℚ) (k : Nat)
    (hpools : ∀ r ∈ s.rarities.map Prod.fst, poolOf s r ≠ [])
    (h1 : 0 < totalWeight s.rarities) (h2 : 0 < ssrTotal s) (h3 : 0 < softTotal s)
    (hch : s.chances ≠ 0) : ∃ it s', drawOne s f k = .ok (it, s') := by
  have hgl : 0 < totalWeight ((pity_rarities_and_rate s).getD s.rarities) := by
    rcases available_cases s with hc | hc | hc <;> rw [hc]
    · exact h1
    · exact h2
    · exact h3
  obtain ⟨r, hsel⟩ := selectRarity_ok_of_pos s f hgl
  obtain ⟨rw, hrw, hfst, -⟩ := selectRarity_ok_mem s f r hsel
  have hrmem : r ∈ s.rarities.map Prod.fst :=
    hfst ▸ List.mem_map_of_mem Prod.fst (mem_of_mem_available s rw hrw)
  obtain ⟨it, s', hg⟩ := gacha_by_rarity_ok_of s r k (hpools r hrmem) hch
  refine ⟨it, s', ?_⟩
  unfold drawOne
  rw [hsel]
  simp [hg]

theorem pullLoop_chances_le (F : Nat → ℚ) (K : Nat → Nat) (fuel : Nat) :
    ∀ (s : GachaSystem) (i : Nat),
      (pullLoop s fuel F K i).state.chances ≤ s.chances := by
  induction fuel with
  | zero => intro s i; exact le_refl _
  | succ n ih =>
    intro s i
    simp only [pullLoop]
    cases heq : drawOne s (F i) (K i) with
    | error p => exact le_refl _
    | ok pr =>
      obtain ⟨it, s'⟩ := pr
      have hc := (drawOne_ok_state s (F i) (K i) it s' heq).1
      have hle := ih s' (i + 1)
      cases hres : (pullLoop s' n F K (i + 1)).res <;> simp [hres] <;> omega

theorem pullLoop_ok (F : Nat → ℚ) (K : Nat → Nat) (fuel : Nat) :
    ∀ (s : GachaSystem) (i : Nat),
      (∀ r ∈ s.rarities.map Prod.fst, poolOf s r ≠ []) →
      0 < totalWeight s.rarities → 0 < ssrTotal s → 0 < softTotal s →
      fuel ≤ s.chances →
      ∃ items, (pullLoop s fuel F K i).res = .ok items ∧ items.length = fuel ∧
        (pullLoop s fuel F K i).state.chances = s.chances - fuel := by
  induction fuel with
  | zero => intro s i _ _ _ _ _; exact ⟨[], rfl, rfl, by simp [pullLoop]⟩
  | succ n ih =>
    intro s i hpools h1 h2 h3 hfuel
    have hch : s.chances ≠ 0 := by omega
    obtain ⟨it, s', heq⟩ := drawOne_ok_of s (F i) (K i) hpools h1 h2 h3 hch
    obtain ⟨hc, -, hdata, hrar, -, -⟩ := drawOne_ok_state _ _ _ _ _ heq
    have hpools' : ∀ r ∈ s'.rarities.map Prod.fst, poolOf s' r ≠ [] := by
      rw [hrar]
      intro r hr
      unfold poolOf
      rw [hdata]
      exact hpools r hr
    have h1' : 0 < totalWeight s'.rarities := by rw [hrar]; exact h1
    have h2' : 0 < ssrTotal s' := by unfold ssrTotal; rw [hrar]; exact h2
    have h3' : 0 < softTotal s' := by unfold softTotal; rw [hrar]; exact h3
    have hfuel' : n ≤ s'.chances := by omega
    obtain ⟨items, hres, hlen, hst⟩ := ih s' (i + 1) hpools' h1' h2' h3' hfuel'
    refine ⟨it :: items, ?_, by simp [hlen], ?_⟩
    · simp only [pullLoop, heq]
      simp [hres]
    · simp only [pullLoop, heq]
      simp only [hres]
      simpa using by omega

theorem pullLoop_abort (s : GachaSystem) (fuel : Nat) (F : Nat → ℚ) (K : Nat → Nat)
    (i : Nat) (p : PullPanic) (h : drawOne s (F i) (K i) = .error p) :
    pullLoop s (fuel + 1) F K i = ⟨.error p, s⟩ := by
  simp only [pullLoop, h]

theorem pullLoop_not_underflow (F : Nat → ℚ) (K : Nat → Nat) (fuel : Nat) :
    ∀ (s : GachaSystem) (i : Nat), fuel ≤ s.chances →
      hitUnderflow (pullLoop s fuel F K i) = false := by
  induction fuel with
  | zero => intro s i _; rfl
  | succ n ih =>
    intro s i h
    have hch : s.chances ≠ 0 := by omega
    simp only [pullLoop]
    cases heq : drawOne s (F i) (K i) with
    | error p =>
      cases p with
      | chancesUnderflow => exact absurd heq (drawOne_not_underflow s (F i) (K i) hch)
      | emptyRange => rfl
      | noInterval => rfl
      | unwrapErr e => rfl
    | ok pr =>
      obtain ⟨it, s'⟩ := pr
      have hc := (drawOne_ok_state s (F i) (K i) it s' heq).1
      have hrec := ih s' (i + 1) (by omega)
      cases hres : (pullLoop s' n F K (i + 1)).res with
      | error q =>
        simp only [hitUnderflow, hres] at hrec
        cases q with
        | chancesUnderflow => simp at hrec
        | emptyRange => simp [hitUnderflow, hres]
        | noInterval => simp [hitUnderflow, hres]
        | unwrapErr e => simp [hitUnderflow, hres]
      | ok items => simp [hitUnderflow, hres]

/-! ### Order and disjointness of the constructed intervals -/

theorem rangeContains_eq_false (rg : ℚ × ℚ) (f : ℚ)
    (h : ¬ (rg.1 ≤ f ∧ f < rg.2)) : rangeContains rg f = false := by
  rw [← Bool.not_eq_true, rangeContains_iff]
  exact h

theorem sumBefore_succ_of_lt (rs : List (Rarity × ℚ)) (i : Nat) (h : i < rs.length) :
    sumBefore rs (i + 1) = sumBefore rs i + (rs.get ⟨i, h⟩).2 := by
  induction rs generalizing i with
  | nil => cases h
  | cons hd tl ih =>
    cases i with
    | zero => rw [sumBefore_cons]; simp [sumBefore]
    | succ j =>
      rw [sumBefore_cons, sumBefore_cons, ih j (Nat.lt_of_succ_lt_succ h)]
      simp [add_assoc]

theorem sumBefore_le (rs : List (Rarity × ℚ)) (hw : ∀ p ∈ rs, 0 ≤ p.2)
    (i j : Nat) (hij : i ≤ j) : sumBefore rs i ≤ sumBefore rs j := by
  unfold sumBefore
  have hti : (rs.take j).take i = rs.take i := by rw [List.take_take, min_eq_left hij]
  have hnn : 0 ≤ (((rs.take j).drop i).map Prod.snd).sum := by
    refine List.sum_nonneg ?_
    intro x hx
    obtain ⟨p, hp, hpx⟩ := List.mem_map.1 hx
    exact hpx ▸ hw p (List.mem_of_mem_take (List.mem_of_mem_drop hp))
  have hsum : ((rs.take j).map Prod.snd).sum =
      ((rs.take i).map Prod.snd).sum + (((rs.take j).drop i).map Prod.snd).sum := by
    conv_lhs => rw [← List.take_append_drop i (rs.take j)]
    rw [List.map_append, List.sum_append, hti]
  linarith

theorem rarity_range_get (rs : List (Rarity × ℚ)) (i : Nat) (h : i < rs.length)
    (h' : i < (rarity_range rs).length) :
    (rarity_range rs).get ⟨i, h'⟩ =
      ((rs.get ⟨i, h⟩).1, (sumBefore rs i, sumBefore rs i + (rs.get ⟨i, h⟩).2)) := by
  unfold rarity_range
  rw [rarityRangeGo_get 0 rs i h (by unfold rarity_range at h'; exact h')]
  simp

theorem rarity_range_disjoint_lt (rs : List (Rarity × ℚ))
    (hw : ∀ p ∈ rs, 0 ≤ p.2) (i j : Nat) (hij : i < j)
    (hi : i < rs.length) (hj : j < rs.length)
    (hi' : i < (rarity_range rs).length) (hj' : j < (rarity_range rs).length)
    (f : ℚ) (hcont : rangeContains ((rarity_range rs).get ⟨i, hi'⟩).2 f = true) :
    rangeContains ((rarity_range rs).get ⟨j, hj'⟩).2 f = false := by
  rw [rarity_range_get rs i hi hi'] at hcont
  rw [rarity_range_get rs j hj hj']
  rw [rangeContains_iff] at hcont
  refine rangeContains_eq_false _ _ ?_
  rintro ⟨hle, -⟩
  have h1 : sumBefore rs (i + 1) ≤ sumBefore rs j := sumBefore_le rs hw (i + 1) j hij
  rw [sumBefore_succ_of_lt rs i hi] at h1
  simp only at hcont hle
  linarith [hcont.2]

theorem find?_rarityRangeGo_first (sum : ℚ) (rs : List (Rarity × ℚ))
    (hw : ∀ p ∈ rs, 0 ≤ p.2) (f : ℚ) (j : Nat)
    (hj : j < (rarityRangeGo sum rs).length)
    (hcont : rangeContains ((rarityRangeGo sum rs).get ⟨j, hj⟩).2 f = true) :
    (rarityRangeGo sum rs).find? (fun p => rangeContains p.2 f) =
      some ((rarityRangeGo sum rs).get ⟨j, hj⟩) := by
  induction rs generalizing sum j with
  | nil => rw [rarityRangeGo_length] at hj; cases hj
  | cons hd tl ih =>
    obtain ⟨r, w⟩ := hd
    cases j with
    | zero =>
      have hget : (rarityRangeGo sum ((r, w) :: tl)).get ⟨0, hj⟩ =
          (r, (sum, sum + w)) := by simp [rarityRangeGo]
      rw [hget] at hcont ⊢
      simp only [rarityRangeGo]
      rw [List.find?_cons_of_pos]
      exact hcont
    | succ m =>
      have hm : m < (rarityRangeGo (sum + w) tl).length := by
        have := hj
        simp only [rarityRangeGo, List.length_cons] at this
        exact Nat.lt_of_succ_lt_succ this
      have hmt : m < tl.length := by rw [rarityRangeGo_length] at hm; exact hm
      have hstep : (rarityRangeGo sum ((r, w) :: tl)).get ⟨m + 1, hj⟩ =
          (rarityRangeGo (sum + w) tl).get ⟨m, hm⟩ := by
        simp [rarityRangeGo]
      rw [hstep] at hcont ⊢
      have hlo := rarityRangeGo_get (sum + w) tl m hmt hm
      have hwtl : ∀ p ∈ tl, 0 ≤ p.2 := fun p hp => hw p (List.mem_cons_of_mem _ hp)
      have hge : sum + w ≤ f := by
        have hc := hcont
        rw [hlo, rangeContains_iff] at hc
        have hnn := sumBefore_nonneg tl m hwtl
        simp only at hc
        linarith [hc.1]
      have hhead : rangeContains (sum, sum + w) f = false :=
        rangeContains_eq_false _ _ (by rintro ⟨-, hlt⟩; simp only at hlt; linarith)
      simp only [rarityRangeGo]
      rw [List.find?_cons_of_neg]
      · exact ih (sum + w) hwtl m hm hcont
      · simp only [hhead]
        simp

theorem available_of_hard_hit (s : GachaSystem)
    (h : s._hard_pity_accu + 1 = s.hard_pity) :
    (pity_rarities_and_rate s).getD s.rarities =
      s.rarities.filter (fun p => p.1 == Rarity.SSR) := by
  unfold pity_rarities_and_rate
  simp [h]

theorem available_of_soft_hit (s : GachaSystem)
    (hhard : s._hard_pity_accu + 1 ≠ s.hard_pity)
    (hsoft : s._pity_accu + 1 = s.pity) :
    (pity_rarities_and_rate s).getD s.rarities =
      s.rarities.filter (fun p => p.1 == Rarity.SSR || p.1 == Rarity.SR) := by
  unfold pity_rarities_and_rate
  simp [hhard, hsoft]

theorem rarityRangeGo_map_fst (sum : ℚ) (rs : List (Rarity × ℚ)) :
    (rarityRangeGo sum rs).map Prod.fst = rs.map Prod.fst := by
  induction rs generalizing sum with
  | nil => rfl
  | cons hd tl ih => obtain ⟨r, w⟩ := hd; simp [rarityRangeGo, ih]

/-! ### Concrete instances (the tables and states of the repository's tests) -/

/-- The rarity table of the repository's tests: weights 0.05, 0.35, 0.4, 0.2
in declared order SSR, N, R, SR. -/
def testTable : List (Rarity × ℚ) :=
  [(.SSR, 1/20), (.N, 7/20), (.R, 2/5), (.SR, 1/5)]

/-- A pool holding one item of every tier. -/
def demoData : List (Rarity × List GachaItem) :=
  [(.SSR, [⟨"SSR-0", .SSR⟩]), (.SR, [⟨"SR-0", .SR⟩]),
    (.R, [⟨"R-0", .R⟩]), (.N, [⟨"N-0", .N⟩])]

/-- A stocked engine with budget 2 and pity disabled (both thresholds 0). -/
def demoState : GachaSystem :=
  { chances := 2, pity := 0, hard_pity := 0, _pity_accu := 0,
    _hard_pity_accu := 0, data := demoData, rarities := testTable }

/-- A stocked engine whose rarity table is empty: `gen_limit` is 0, so the
very first draw of any pull panics on `rng.gen_range(0.0..0.0)`. -/
def emptyTableState : GachaSystem :=
  { chances := 5, pity := 0, hard_pity := 0, _pity_accu := 0,
    _hard_pity_accu := 0, data := demoData, rarities := [] }

/-- A stocked engine with non-zero pity streaks, used to watch the counter
updates of a successful SR draw. -/
def counterState : GachaSystem :=
  { chances := 3, pity := 0, hard_pity := 0, _pity_accu := 5,
    _hard_pity_accu := 7, data := demoData, rarities := testTable }

/-- The state `gacha_by_rarity counterState .SR 0` steps to. -/
def counterStateAfterSR : GachaSystem :=
  { chances := 2, pity := 0, hard_pity := 0, _pity_accu := 0,
    _hard_pity_accu := 8, data := demoData, rarities := testTable }

/-- Hard pity about to trigger (threshold 1, streak 0) on the test table,
whose SSR weight is positive. -/
def hardPityState : GachaSystem :=
  { chances := 1, pity := 999, hard_pity := 1, _pity_accu := 0,
    _hard_pity_accu := 0, data := demoData, rarities := testTable }

/-- Hard pity about to trigger while SSR's configured weight is 0. -/
def hardPityZeroState : GachaSystem :=
  { chances := 1, pity := 999, hard_pity := 1, _pity_accu := 0,
    _hard_pity_accu := 0, data := demoData,
    rarities := [(.SSR, 0), (.SR, 1/5), (.R, 2/5), (.N, 7/20)] }

/-- Soft pity about to trigger (threshold 1) while hard pity is far away, on
the test table whose SSR weight is positive. -/
def softPityState : GachaSystem :=
  { chances := 1, pity := 1, hard_pity := 999, _pity_accu := 0,
    _hard_pity_accu := 0, data := demoData, rarities := testTable }

/-- The `soft_pity_no_ssr` test state: soft pity about to trigger with SSR
weight 0 and SR weight positive. -/
def softPityNoSSRState : GachaSystem :=
  { chances := 10, pity := 1, hard_pity := 80, _pity_accu := 0,
    _hard_pity_accu := 0, data := demoData,
    rarities := [(.SSR, 0), (.SR, 1/1000), (.R, 1/2), (.N, 1/2)] }

/-- Fresh engine whose two pity thresholds are both 0. -/
def zeroThresholdState : GachaSystem :=
  { chances := 0, pity := 0, hard_pity := 0, _pity_accu := 0,
    _hard_pity_accu := 0, data := [], rarities := [] }

/-- A table naming the same tier twice, half the weight each. -/
def dupTable : List (Rarity × ℚ) := [(.SSR, 1/2), (.SSR, 1/2)]

/-- An engine whose pool is missing the SSR entry entirely. -/
def missingPoolState : GachaSystem :=
  { chances := 4, pity := 0, hard_pity := 0, _pity_accu := 0,
    _hard_pity_accu := 0, data := [], rarities := [(.SSR, 1)] }

/-- An engine whose SSR pool entry exists but is empty. -/
def emptyPoolState : GachaSystem :=
  { chances := 4, pity := 0, hard_pity := 0, _pity_accu := 0,
    _hard_pity_accu := 0, data := [(.SSR, [])], rarities := [(.SSR, 1)] }

/-! ### Claim theorems -/

/-- C1 (amended): for every engine state whose rarity table has a non-empty
pool entry for each of its tiers and whose full, SSR-filtered and
SSR/SR-filtered total weights are all positive, `pull num` returns exactly
`min num chances` items and leaves the budget at `chances - min num chances`;
and for every state and request whatsoever, the budget never increases across
a call to `pull`. -/
theorem pull_length_and_budget :
    (∀ (s : GachaSystem) (num : Nat) (F : Nat → ℚ) (K : Nat → Nat),
      (∀ r ∈ s.rarities.map Prod.fst, poolOf s r ≠ []) →
      0 < totalWeight s.rarities → 0 < ssrTotal s → 0 < softTotal s →
      ∃ items, (pull s num F K).res = .ok items ∧
        items.length = min num s.chances ∧
        (pull s num F K).state.chances = s.chances - min num s.chances) ∧
    (∀ (s : GachaSystem) (num : Nat) (F : Nat → ℚ) (K : Nat → Nat),
      (pull s num F K).state.chances ≤ s.chances) := by
  constructor
  · intro s num F K hpools h1 h2 h3
    exact pullLoop_ok F K (min num s.chances) s 0 hpools h1 h2 h3
      (min_le_right num s.chances)
  · intro s num F K
    exact pullLoop_chances_le F K (min num s.chances) s 0

/-- C2: after a successful single item draw, drawing SSR zeroes both pity
counters, drawing SR zeroes the soft counter and increments the hard counter,
and drawing R or N increments both. -/
theorem gacha_counter_update (s : GachaSystem) (r : Rarity) (k : Nat)
    (it : GachaItem) (s' : GachaSystem)
    (h : gacha_by_rarity s r k = (.ok it, s')) :
    (r = .SSR → s'._pity_accu = 0 ∧ s'._hard_pity_accu = 0) ∧
    (r = .SR → s'._pity_accu = 0 ∧
      s'._hard_pity_accu = s._hard_pity_accu + 1) ∧
    ((r = .R ∨ r = .N) → s'._pity_accu = s._pity_accu + 1 ∧
      s'._hard_pity_accu = s._hard_pity_accu + 1) := by
  unfold gacha_by_rarity at h
  split at h
  · simp at h
  · split at h
    · simp at h
    · split at h
      · simp at h
      · obtain ⟨-, h2⟩ := Prod.mk.injEq .. ▸ h
        subst h2
        cases r <;> simp

/-- C3 (amended): whenever hard pity triggers (`hard_streak + 1 =
hard_threshold`), the tier selection of the next draw is deterministic: it
yields SSR for every value of the random draw whenever the total weight of
the SSR entries is positive, and it panics on an empty sampling range
(`rng.gen_range(0.0..0.0)`) when that total weight is zero — including the
case in which SSR's configured weight is 0. -/
theorem hard_pity_draw :
    (∀ (s : GachaSystem) (f : ℚ), s._hard_pity_accu + 1 = s.hard_pity →
      0 < ssrTotal s → selectRarity s f = .ok .SSR) ∧
    (∀ (s : GachaSystem) (f : ℚ), s._hard_pity_accu + 1 = s.hard_pity →
      ssrTotal s ≤ 0 → selectRarity s f = .error .emptyRange) := by
  constructor
  · intro s f hh hpos
    have hav := available_of_hard_hit s hh
    have hgl : 0 < totalWeight ((pity_rarities_and_rate s).getD s.rarities) := by
      rw [hav]; exact hpos
    obtain ⟨r, hsel⟩ := selectRarity_ok_of_pos s f hgl
    obtain ⟨rw, hrw, hfst, -⟩ := selectRarity_ok_mem s f r hsel
    rw [hav] at hrw
    have : rw.1 = Rarity.SSR := by
      have := (List.mem_filter.1 hrw).2
      simpa using this
    rw [← hfst, this] at hsel
    exact hsel
  · intro s f hh hle
    simp only [selectRarity, available_of_hard_hit s hh]
    rw [if_pos]
    unfold ssrTotal totalWeight at hle
    exact hle

/-- C4 (amended): whenever soft pity triggers and hard pity does not, the
table is restricted to its SSR and SR entries, so the selected tier is SR or
SSR (not necessarily SR); when additionally every SSR entry of the table has
weight 0, the selected tier is exactly SR, for every value of the random
draw. -/
theorem soft_pity_draw :
    (∀ (s : GachaSystem) (f : ℚ) (r : Rarity),
      s._hard_pity_accu + 1 ≠ s.hard_pity → s._pity_accu + 1 = s.pity →
      selectRarity s f = .ok r → r = .SR ∨ r = .SSR) ∧
    (∀ (s : GachaSystem) (f : ℚ) (r : Rarity),
      s._hard_pity_accu + 1 ≠ s.hard_pity → s._pity_accu + 1 = s.pity →
      (∀ p ∈ s.rarities, p.1 = Rarity.SSR → p.2 = 0) →
      selectRarity s f = .ok r → r = .SR) := by
  have key : ∀ (s : GachaSystem) (f : ℚ) (r : Rarity),
      s._hard_pity_accu + 1 ≠ s.hard_pity → s._pity_accu + 1 = s.pity →
      selectRarity s f = .ok r →
      ∃ rw ∈ s.rarities, rw.1 = r ∧ 0 < rw.2 ∧ (r = .SSR ∨ r = .SR) := by
    intro s f r hhard hsoft hsel
    obtain ⟨rw, hrw, hfst, hpos⟩ := selectRarity_ok_mem s f r hsel
    rw [available_of_soft_hit s hhard hsoft] at hrw
    obtain ⟨hmem, htier⟩ := List.mem_filter.1 hrw
    refine ⟨rw, hmem, hfst, hpos, ?_⟩
    rw [← hfst]
    simpa using htier
  constructor
  · intro s f r hhard hsoft hsel
    obtain ⟨-, -, -, -, hor⟩ := key s f r hhard hsoft hsel
    exact hor.symm
  · intro s f r hhard hsoft hzero hsel
    obtain ⟨rw, hmem, hfst, hpos, hor⟩ := key s f r hhard hsoft hsel
    rcases hor with hssr | hsr
    · exfalso
      have := hzero rw hmem (hfst.trans hssr)
      rw [this] at hpos
      exact lt_irrefl 0 hpos
    · exact hsr

unseal Rat.add Rat.mul Rat.inv in
/-- C5: `rarity_range` is length- and order-preserving on tiers; the i-th
interval is `[sum of the first i weights, that sum + i-th weight)`, so the
intervals are contiguous, start at 0 and have the i-th weight as length; for
non-negative weights distinct intervals are disjoint; on the test table
[(SSR,0.05),(N,0.35),(R,0.4),(SR,0.2)] the intervals are exactly
[0,0.05), [0.05,0.40), [0.40,0.80), [0.80,1.00) in declared order. -/
theorem rarity_range_spec :
    (∀ rs : List (Rarity × ℚ), (rarity_range rs).map Prod.fst = rs.map Prod.fst) ∧
    (∀ (rs : List (Rarity × ℚ)) (i : Nat) (h : i < rs.length)
      (h' : i < (rarity_range rs).length),
      ((rarity_range rs).get ⟨i, h'⟩).2 =
        (sumBefore rs i, sumBefore rs i + (rs.get ⟨i, h⟩).2)) ∧
    (∀ (rs : List (Rarity × ℚ)), (∀ p ∈ rs, 0 ≤ p.2) →
      ∀ (i j : Nat) (hi : i < (rarity_range rs).length)
        (hj : j < (rarity_range rs).length) (f : ℚ), i ≠ j →
        rangeContains ((rarity_range rs).get ⟨i, hi⟩).2 f = true →
        rangeContains ((rarity_range rs).get ⟨j, hj⟩).2 f = false) ∧
    rarity_range testTable =
      [(.SSR, (0, 1/20)), (.N, (1/20, 2/5)), (.R, (2/5, 4/5)), (.SR, (4/5, 1))] := by
  have hlen : ∀ rs : List (Rarity × ℚ), (rarity_range rs).length = rs.length :=
    fun rs => rarityRangeGo_length 0 rs
  refine ⟨fun rs => rarityRangeGo_map_fst 0 rs, ?_, ?_, by decide⟩
  · intro rs i h h'
    rw [rarity_range_get rs i h h']
  · intro rs hw i j hi hj f hij hcont
    rcases Nat.lt_or_ge i j with hlt | hge
    · exact rarity_range_disjoint_lt rs hw i j hlt (hlen rs ▸ hi) (hlen rs ▸ hj)
        hi hj f hcont
    · have hjlt : j < i := Nat.lt_of_le_of_ne hge (Ne.symm hij)
      by_contra hne
      have hcj : rangeContains ((rarity_range rs).get ⟨j, hj⟩).2 f = true := by
        cases hcj : rangeContains ((rarity_range rs).get ⟨j, hj⟩).2 f
        · exact absurd hcj hne
        · rfl
      have := rarity_range_disjoint_lt rs hw j i hjlt (hlen rs ▸ hj) (hlen rs ▸ hi)
        hj hi f hcj
      rw [hcont] at this
      cases this

/-- C6: a selected tier with no pool entry fails the draw with the
`InvalidRarity` kind and a tier whose entry is empty fails it with the
`RarityWithNoData` kind; the `.unwrap` in `pull` turns the error into the
panic that aborts the whole batch, which therefore returns no items at all
(no partial or padded result) while keeping the state mutations of the prior
successful draws of the batch. -/
theorem pull_error_propagation :
    (∀ (s : GachaSystem) (r : Rarity) (k : Nat), dataGet s.data r = none →
      gacha_by_rarity s r k = (.err (.InvalidRarity (rarityName r)), s)) ∧
    (∀ (s : GachaSystem) (r : Rarity) (k : Nat), dataGet s.data r = some [] →
      gacha_by_rarity s r k = (.err (.RarityWithNoData (rarityName r)), s)) ∧
    (∀ (s : GachaSystem) (f : ℚ) (k : Nat) (r : Rarity) (e : GachaError)
      (s₂ : GachaSystem), selectRarity s f = .ok r →
      gacha_by_rarity s r k = (.err e, s₂) →
      drawOne s f k = .error (.unwrapErr e)) ∧
    (∀ (s : GachaSystem) (fuel : Nat) (F : Nat → ℚ) (K : Nat → Nat) (i : Nat)
      (p : PullPanic), drawOne s (F i) (K i) = .error p →
      pullLoop s (fuel + 1) F K i = ⟨.error p, s⟩) := by
  refine ⟨?_, ?_, ?_, ?_⟩
  · intro s r k h
    unfold gacha_by_rarity
    rw [h]
  · intro s r k h
    unfold gacha_by_rarity
    rw [h]
    simp
  · intro s f k r e s₂ hsel hg
    unfold drawOne
    rw [hsel]
    simp [hg]
  · intro s fuel F K i p h
    exact pullLoop_abort s fuel F K i p h

/-- C7: a failed single draw mutates nothing — when `gacha_by_rarity` returns
an error the budget and both pity counters are exactly their prior values —
while a failure inside a `pull` batch leaves the state exactly as the prior
successful draws of that batch left it (no rollback). -/
theorem failed_draw_frame :
    (∀ (s : GachaSystem) (r : Rarity) (k : Nat) (e : GachaError)
      (s₂ : GachaSystem), gacha_by_rarity s r k = (.err e, s₂) →
      s₂.chances = s.chances ∧ s₂._pity_accu = s._pity_accu ∧
        s₂._hard_pity_accu = s._hard_pity_accu) ∧
    (∀ (s : GachaSystem) (fuel : Nat) (F : Nat → ℚ) (K : Nat → Nat) (i : Nat)
      (p : PullPanic), drawOne s (F i) (K i) = .error p →
      (pullLoop s (fuel + 1) F K i).state = s) := by
  constructor
  · intro s r k e s₂ h
    have := gacha_by_rarity_err_state s r k e s₂ h
    subst this
    exact ⟨rfl, rfl, rfl⟩
  · intro s fuel F K i p h
    rw [pullLoop_abort s fuel F K i p h]

/-- C8 (amended): the pity check reports a hit exactly when `streak + 1`
equals the threshold, so a threshold of 1 triggers on the very next draw of a
fresh state; a threshold of 0, however, never triggers, because `streak + 1`
is at least 1 — with both thresholds 0 the check reports no hit. -/
theorem pity_threshold_check :
    (∀ s : GachaSystem, s.hard_pity = s._hard_pity_accu + 1 →
      (pity_rarities_and_rate s).isSome = true) ∧
    (∀ s : GachaSystem, s.pity = s._pity_accu + 1 →
      (pity_rarities_and_rate s).isSome = true) ∧
    (∀ s : GachaSystem, s.hard_pity = 0 → s.pity = 0 →
      pity_rarities_and_rate s = none) := by
  refine ⟨?_, ?_, ?_⟩
  · intro s h
    unfold pity_rarities_and_rate
    rw [if_pos h.symm]
    rfl
  · intro s h
    unfold pity_rarities_and_rate
    by_cases hh : s._hard_pity_accu + 1 = s.hard_pity
    · rw [if_pos hh]; rfl
    · rw [if_neg hh, if_pos h.symm]; rfl
  · intro s hh hs
    unfold pity_rarities_and_rate
    rw [if_neg (by omega), if_neg (by omega)]

/-- C9 (amended): with non-negative weights, every occurrence of a tier in
the table is reachable, duplicates included: any random value inside the j-th
constructed interval makes the first-matching-interval search return exactly
the j-th entry, even when an earlier entry carries the same tier. -/
theorem duplicate_tier_selection (rs : List (Rarity × ℚ))
    (hw : ∀ p ∈ rs, 0 ≤ p.2) (j : Nat) (hj : j < (rarity_range rs).length)
    (f : ℚ) (hcont : rangeContains ((rarity_range rs).get ⟨j, hj⟩).2 f = true) :
    (rarity_range rs).find? (fun p => rangeContains p.2 f) =
      some ((rarity_range rs).get ⟨j, hj⟩) := by
  unfold rarity_range at hj hcont ⊢
  exact find?_rarityRangeGo_first 0 rs hw f j hj hcont

/-- C10: the `chances -= 1` budget decrement inside `pull` runs at most
`min num chances` times, once per loop iteration and only while the budget is
still positive, so the unsigned subtraction never underflows: no call to
`pull` can reach the modelled underflow panic. -/
theorem pull_no_budget_underflow (s : GachaSystem) (num : Nat) (F : Nat → ℚ)
    (K : Nat → Nat) : hitUnderflow (pull s num F K) = false := by
  unfold pull
  exact pullLoop_not_underflow F K (min num s.chances) s 0 (min_le_right _ _)

/-! ### Counterexamples and witnesses on concrete states -/

unseal Rat.add Rat.mul Rat.inv in
/-- C1 counterexample: on a state with an empty rarity table (and every pool
entry non-empty — no tier is ever selected, so the claim's proviso holds
vacuously) `pull 3` with budget 5 panics on its first draw instead of
returning `min 3 5 = 3` items. -/
theorem pull_length_counterexample :
    (∀ r ∈ emptyTableState.rarities.map Prod.fst, poolOf emptyTableState r ≠ []) ∧
    emptyTableState.chances = 5 ∧
    (pull emptyTableState 3 (fun _ => 0) (fun _ => 0)).res =
      .error .emptyRange := by
  decide

unseal Rat.add Rat.mul Rat.inv in
/-- C1 witness: the stocked engine with budget 2 answers `pull 3` with
exactly `min 3 2 = 2` items and ends with budget 0, and never gains budget. -/
theorem pull_length_and_budget_witness :
    (∃ items, (pull demoState 3 (fun _ => 1/2) (fun _ => 0)).res = .ok items ∧
      items.length = min 3 demoState.chances ∧
      (pull demoState 3 (fun _ => 1/2) (fun _ => 0)).state.chances =
        demoState.chances - min 3 demoState.chances) ∧
    (pull demoState 3 (fun _ => 1/2) (fun _ => 0)).state.chances ≤
      demoState.chances :=
  ⟨pull_length_and_budget.1 demoState 3 (fun _ => 1/2) (fun _ => 0)
      (by decide) (by decide) (by decide) (by decide),
    pull_length_and_budget.2 demoState 3 (fun _ => 1/2) (fun _ => 0)⟩

unseal Rat.add Rat.mul Rat.inv in
/-- C2 witness: a successful SR draw at streaks (soft 5, hard 7) steps to
(soft 0, hard 8). -/
theorem gacha_counter_update_witness :
    (Rarity.SR = .SSR → counterStateAfterSR._pity_accu = 0 ∧
      counterStateAfterSR._hard_pity_accu = 0) ∧
    (Rarity.SR = .SR → counterStateAfterSR._pity_accu = 0 ∧
      counterStateAfterSR._hard_pity_accu = counterState._hard_pity_accu + 1) ∧
    ((Rarity.SR = .R ∨ Rarity.SR = .N) →
      counterStateAfterSR._pity_accu = counterState._pity_accu + 1 ∧
      counterStateAfterSR._hard_pity_accu = counterState._hard_pity_accu + 1) :=
  gacha_counter_update counterState .SR 0 ⟨"SR-0", .SR⟩ counterStateAfterSR
    (by decide)

unseal Rat.add Rat.mul Rat.inv in
/-- C3 counterexample: hard pity triggers (streak 0, threshold 1) while SSR's
configured weight is 0: the next `pull` panics on the empty sampling range
instead of yielding an SSR-tier item. -/
theorem hard_pity_zero_weight_counterexample :
    hardPityZeroState._hard_pity_accu + 1 = hardPityZeroState.hard_pity ∧
    (pull hardPityZeroState 1 (fun _ => 1/100) (fun _ => 0)).res =
      .error .emptyRange := by
  decide

unseal Rat.add Rat.mul Rat.inv in
/-- C3 witness: with hard pity triggering and SSR weight 0.05 > 0, the tier
selection returns SSR. -/
theorem hard_pity_draw_witness :
    0 < ssrTotal hardPityState ∧
    selectRarity hardPityState (1/100) = .ok .SSR :=
  ⟨by decide, hard_pity_draw.1 hardPityState (1/100) (by decide) (by decide)⟩

unseal Rat.add Rat.mul Rat.inv in
/-- C4 counterexample: soft pity triggers (threshold 1) on the test table,
hard pity does not, and the random value 0.01 selects tier SSR — not SR as
the claim requires. -/
theorem soft_pity_sr_counterexample :
    softPityState._hard_pity_accu + 1 ≠ softPityState.hard_pity ∧
    softPityState._pity_accu + 1 = softPityState.pity ∧
    selectRarity softPityState (1/100) = .ok .SSR ∧
    Rarity.SSR ≠ Rarity.SR := by
  decide

unseal Rat.add Rat.mul Rat.inv in
/-- C4 witness: on the `soft_pity_no_ssr` test state (SSR weight 0) the
soft-pity draw selects SR, and the amended theorem applies to it. -/
theorem soft_pity_draw_witness :
    selectRarity softPityNoSSRState (1/2000) = .ok .SR ∧ Rarity.SR = Rarity.SR :=
  ⟨by decide,
    soft_pity_draw.2 softPityNoSSRState (1/2000) .SR (by decide) (by decide)
      (by decide) (by decide)⟩

unseal Rat.add Rat.mul Rat.inv in
/-- C5 witness: on the test table the second interval is
`[sumBefore 1, sumBefore 1 + 0.35)` and the first and second intervals do not
both contain 0.1. -/
theorem rarity_range_spec_witness :
    ((rarity_range testTable).get ⟨1, by decide⟩).2 =
      (sumBefore testTable 1, sumBefore testTable 1 +
        (testTable.get ⟨1, by decide⟩).2) ∧
    rangeContains ((rarity_range testTable).get ⟨1, by decide⟩).2 (1/10) = true ∧
    rangeContains ((rarity_range testTable).get ⟨0, by decide⟩).2 (1/10) = false :=
  ⟨rarity_range_spec.2.1 testTable 1 (by decide) (by decide),
    by decide,
    rarity_range_spec.2.2.1 testTable (by decide) 1 0 (by decide) (by decide)
      (1/10) (by decide) (by decide)⟩

unseal Rat.add Rat.mul Rat.inv in
/-- C6 witness: the two error kinds on concrete broken pools, the `.unwrap`
panic of the draw error, and the batch abort they cause. -/
theorem pull_error_propagation_witness :
    gacha_by_rarity missingPoolState .SSR 0 =
      (.err (.InvalidRarity (rarityName .SSR)), missingPoolState) ∧
    gacha_by_rarity emptyPoolState .SSR 0 =
      (.err (.RarityWithNoData (rarityName .SSR)), emptyPoolState) ∧
    drawOne missingPoolState 0 0 =
      .error (.unwrapErr (.InvalidRarity (rarityName .SSR))) ∧
    pullLoop missingPoolState 3 (fun _ => 0) (fun _ => 0) 0 =
      ⟨.error (.unwrapErr (.InvalidRarity (rarityName .SSR))),
        missingPoolState⟩ :=
  ⟨pull_error_propagation.1 missingPoolState .SSR 0 (by decide),
    pull_error_propagation.2.1 emptyPoolState .SSR 0 (by decide),
    pull_error_propagation.2.2.1 missingPoolState 0 0 .SSR
      (.InvalidRarity (rarityName .SSR)) missingPoolState (by decide) (by decide),
    pull_error_propagation.2.2.2 missingPoolState 2 (fun _ => 0) (fun _ => 0) 0
      (.unwrapErr (.InvalidRarity (rarityName .SSR))) (by decide)⟩

unseal Rat.add Rat.mul Rat.inv in
/-- C7 witness: a failed draw on the empty SSR pool leaves budget and both
streaks untouched, and aborting the batch there keeps the entering state. -/
theorem failed_draw_frame_witness :
    (emptyPoolState.chances = emptyPoolState.chances ∧
      emptyPoolState._pity_accu = emptyPoolState._pity_accu ∧
      emptyPoolState._hard_pity_accu = emptyPoolState._hard_pity_accu) ∧
    (pullLoop emptyPoolState 1 (fun _ => 0) (fun _ => 0) 0).state =
      emptyPoolState :=
  ⟨failed_draw_frame.1 emptyPoolState .SSR 0
      (.RarityWithNoData (rarityName .SSR)) emptyPoolState (by decide),
    failed_draw_frame.2 emptyPoolState 0 (fun _ => 0) (fun _ => 0) 0
      (.unwrapErr (.RarityWithNoData (rarityName .SSR))) (by decide)⟩

/-- C8 counterexample: with both thresholds 0 on a fresh state the pity check
reports no hit at all — a threshold of 0 does not mean "pity on every draw". -/
theorem pity_threshold_zero_counterexample :
    zeroThresholdState.hard_pity = 0 ∧ zeroThresholdState.pity = 0 ∧
    (pity_rarities_and_rate zeroThresholdState).isSome = false := by
  decide

unseal Rat.add Rat.mul Rat.inv in
/-- C8 witness: thresholds equal to streak + 1 (here 1 on fresh states)
report a hit; thresholds 0 report none. -/
theorem pity_threshold_check_witness :
    (pity_rarities_and_rate hardPityState).isSome = true ∧
    (pity_rarities_and_rate softPityState).isSome = true ∧
    pity_rarities_and_rate zeroThresholdState = none :=
  ⟨pity_threshold_check.1 hardPityState (by decide),
    pity_threshold_check.2.1 softPityState (by decide),
    pity_threshold_check.2.2 zeroThresholdState rfl rfl⟩

unseal Rat.add Rat.mul Rat.inv in
/-- C9 counterexample: on the duplicate table [(SSR,
0.5), (SSR, 0.5)] the random value 0.75 lies in [0, total weight) and the
first-matching-interval search selects the SECOND occurrence — the entry with
interval [0.5, 1) — so a later duplicate occurrence is reachable. -/
theorem duplicate_tier_counterexample :
    (rarity_range dupTable).find? (fun p => rangeContains p.2 (3/4)) =
      some (.SSR, (1/2, 1)) ∧
    (rarity_range dupTable).get? 1 = some (.SSR, (1/2, 1)) ∧
    (rarity_range dupTable).get? 0 = some (.SSR, (0, 1/2)) ∧
    (0:ℚ) ≤ 3/4 ∧ (3/4:ℚ) < totalWeight dupTable := by
  decide

unseal Rat.add Rat.mul Rat.inv in
/-- C9 witness: the amended theorem applied to the duplicate table at its
second occurrence and the value 0.75. -/
theorem duplicate_tier_selection_witness :
    (rarity_range dupTable).find? (fun p => rangeContains p.2 (3/4)) =
      some ((rarity_range dupTable).get ⟨1, by decide⟩) :=
  duplicate_tier_selection dupTable (by decide) 1 (by decide) (3/4) (by decide)
